import Mathlib

/-!
Verification development for the contact-book program in `task_1.py`.

The program is shallowly embedded: Python dates become a `Date` structure
over `Nat` with the proleptic Gregorian calendar (the calendar of
`datetime.date`), exceptions become `Except String`, the mutable record
and address-book objects become immutable values threaded explicitly, and
the ambient clock read `datetime.today().date()` inside
`get_upcoming_birthdays` becomes an explicit `today` argument.
-/

namespace Task1

/-- Gregorian leap-year test, as used by `datetime.date` (divisible by 4,
except centuries not divisible by 400). -/
def isLeap (y : Nat) : Bool :=
  y % 4 == 0 && (y % 100 != 0 || y % 400 == 0)

/-- Length of a month in the Gregorian calendar of `datetime.date`. -/
def daysInMonth (y m : Nat) : Nat :=
  if m = 2 then (if isLeap y then 29 else 28)
  else if m = 4 ∨ m = 6 ∨ m = 9 ∨ m = 11 then 30
  else 31

/-- A calendar date, mirroring `datetime.date` (year, month, day). -/
structure Date where
  year : Nat
  month : Nat
  day : Nat
deriving DecidableEq, Repr

/-- Validity condition enforced by the `datetime.date` constructor:
`MINYEAR = 1 ≤ year ≤ 9999 = MAXYEAR`, month in 1..12, day in range for
the month. -/
def Date.valid (d : Date) : Bool :=
  decide (1 ≤ d.year) && decide (d.year ≤ 9999) &&
  decide (1 ≤ d.month) && decide (d.month ≤ 12) &&
  decide (1 ≤ d.day) && decide (d.day ≤ daysInMonth d.year d.month)

/-- The `datetime.date(y, m, d)` constructor: `none` models the
`ValueError` raised on an out-of-range component. -/
def mkDate (y m d : Nat) : Option Date :=
  if Date.valid ⟨y, m, d⟩ then some ⟨y, m, d⟩ else none

/-- The `_DAYS_BEFORE_MONTH` table of CPython `datetime`: cumulative
days before month `m` in a non-leap year. -/
def daysBeforeMonthTable (m : Nat) : Nat :=
  if m = 1 then 0 else if m = 2 then 31 else if m = 3 then 59
  else if m = 4 then 90 else if m = 5 then 120 else if m = 6 then 151
  else if m = 7 then 181 else if m = 8 then 212 else if m = 9 then 243
  else if m = 10 then 273 else if m = 11 then 304 else 334

/-- Days in the months strictly before month `m` of year `y`, as
CPython's `_days_before_month`: the table plus one for leap years after
February. -/
def daysBeforeMonth (y m : Nat) : Nat :=
  daysBeforeMonthTable m + (if 2 < m ∧ isLeap y = true then 1 else 0)

/-- Days strictly before January 1 of year `y` in the proleptic Gregorian
calendar, as in CPython's `_days_before_year`. -/
def daysBeforeYear (y : Nat) : Nat :=
  365 * (y - 1) + (y - 1) / 4 - (y - 1) / 100 + (y - 1) / 400

/-- Proleptic Gregorian ordinal of a date, as `date.toordinal()`:
January 1 of year 1 has ordinal 1. -/
def toOrdinal (d : Date) : Nat :=
  daysBeforeYear d.year + daysBeforeMonth d.year d.month + d.day

/-- Day of week as `date.weekday()`: Monday is 0 and Sunday is 6.
Ordinal 1 (January 1 of year 1) is a Monday. -/
def weekday (d : Date) : Nat :=
  (toOrdinal d + 6) % 7

/-- Python date comparison `a < b`: lexicographic on (year, month, day). -/
def pyDateLt (a b : Date) : Bool :=
  decide (a.year < b.year) ||
  (a.year == b.year &&
    (decide (a.month < b.month) ||
      (a.month == b.month && decide (a.day < b.day))))

/-- Signed whole-day difference `(a - b).days` between two dates, the
value of the `timedelta` subtraction in the source. -/
def daysBetween (a b : Date) : Int :=
  (toOrdinal a : Int) - (toOrdinal b : Int)

/-- Successor date; `none` models the `OverflowError` past `9999-12-31`. -/
def nextDay (d : Date) : Option Date :=
  if d.day < daysInMonth d.year d.month then some ⟨d.year, d.month, d.day + 1⟩
  else if d.month < 12 then some ⟨d.year, d.month + 1, 1⟩
  else if d.year < 9999 then some ⟨d.year + 1, 1, 1⟩
  else none

/-- Date plus `timedelta(days = n)` for a non-negative `n`. -/
def pyAddDays : Date → Nat → Option Date
  | d, 0 => some d
  | d, n + 1 => (nextDay d).bind (pyAddDays · n)

/-- Decimal rendering of `n` left-padded with zeros to `width`. -/
def padNum (width n : Nat) : String :=
  let s := toString n
  String.mk (List.replicate (width - s.length) '0') ++ s

/-- The `strftime("%Y.%m.%d")` rendering used for congratulation dates
(zero-padded year, month and day separated by dots). -/
def fmtYMD (d : Date) : String :=
  padNum 4 d.year ++ "." ++ padNum 2 d.month ++ "." ++ padNum 2 d.day

/-- A validated phone number (class `Phone`); `value` is the stored
string. -/
structure Phone where
  value : String
deriving DecidableEq, Repr

/-- Python's `str.isdigit()` over the decimal digits: true on a nonempty
all-digit string. -/
def py_isdigit (s : String) : Bool :=
  !s.data.isEmpty && s.data.all Char.isDigit

/-- The `Phone.__init__` validator: accepts exactly the 10-character
all-digit strings, otherwise raises `ValueError`. -/
def mkPhone (s : String) : Except String Phone :=
  if py_isdigit s && s.length == 10 then .ok ⟨s⟩
  else .error "Phone number must be a string of 10 digits."

/-- Numeric value of a decimal digit character. -/
def digitVal (c : Char) : Nat := c.toNat - 48

/-- The `strptime` directives `%d` (with bounds 1..31) and `%m` (with
bounds 1..12): one or two leading digits whose two-digit value must lie in
`lo..hi`, a lone digit must lie in 1..9; longest match first, exactly as
the regex alternation `3[01]|[12]\d|0[1-9]|[1-9]` resp.
`1[0-2]|0[1-9]|[1-9]` in CPython's `_strptime.TimeRE`. -/
def pyNum2 (lo hi : Nat) : List Char → Option (Nat × List Char)
  | [] => none
  | [c] =>
    if c.isDigit ∧ 1 ≤ digitVal c ∧ digitVal c ≤ 9 then some (digitVal c, [])
    else none
  | c1 :: c2 :: rest =>
    if c1.isDigit then
      if c2.isDigit then
        if lo ≤ 10 * digitVal c1 + digitVal c2 ∧ 10 * digitVal c1 + digitVal c2 ≤ hi then
          some (10 * digitVal c1 + digitVal c2, rest)
        else if 1 ≤ digitVal c1 ∧ digitVal c1 ≤ 9 then some (digitVal c1, c2 :: rest)
        else none
      else if 1 ≤ digitVal c1 ∧ digitVal c1 ≤ 9 then some (digitVal c1, c2 :: rest)
      else none
    else none

/-- The `strptime` directive `%Y`: exactly four digits
(regex `\d\d\d\d`). -/
def parse4Y : List Char → Option (Nat × List Char)
  | y1 :: y2 :: y3 :: y4 :: rest =>
    if y1.isDigit ∧ y2.isDigit ∧ y3.isDigit ∧ y4.isDigit then
      some (1000 * digitVal y1 + 100 * digitVal y2 + 10 * digitVal y3 + digitVal y4, rest)
    else none
  | _ => none

/-- The format match of `datetime.strptime(value, "%d.%m.%Y")`: day,
literal dot, month, literal dot, four-digit year, and no unconverted data
remaining. Returns the matched (day, month, year). -/
def strptime_dmY (cs : List Char) : Option (Nat × Nat × Nat) :=
  match pyNum2 1 31 cs with
  | none => none
  | some (d, r1) =>
    match r1 with
    | [] => none
    | c :: r2 =>
      if c = '.' then
        match pyNum2 1 12 r2 with
        | none => none
        | some (m, r3) =>
          match r3 with
          | [] => none
          | c2 :: r4 =>
            if c2 = '.' then
              match parse4Y r4 with
              | some (y, []) => some (d, m, y)
              | _ => none
            else none
      else none

/-- A validated birthday (class `Birthday`): the original text and the
parsed `date_value`. -/
structure Birthday where
  value : String
  date_value : Date
deriving DecidableEq, Repr

/-- The `Birthday.__init__` constructor: `strptime(value, "%d.%m.%Y")`
followed by the `datetime.date` range check; any `ValueError` is re-raised
with the fixed message. -/
def mkBirthday (s : String) : Except String Birthday :=
  match strptime_dmY s.data with
  | none => .error "Invalid date format. Use DD.MM.YYYY"
  | some (d, m, y) =>
    match mkDate y m d with
    | none => .error "Invalid date format. Use DD.MM.YYYY"
    | some dt => .ok ⟨s, dt⟩

/-- A contact record (class `Record`): name, ordered phone list, optional
birthday. -/
structure Record where
  name : String
  phones : List Phone
  birthday : Option Birthday
deriving DecidableEq, Repr

/-- `Record.add_phone`: validates and appends; a `ValueError` from the
`Phone` constructor propagates and the record is unchanged. -/
def Record.add_phone (r : Record) (phone : String) : Except String Record :=
  (mkPhone phone).map fun p => { r with phones := r.phones ++ [p] }

/-- `Record.add_birthday`: raises when a birthday is already set
(the `isinstance` guard always passes in this typed embedding). -/
def Record.add_birthday (r : Record) (b : Birthday) : Except String Record :=
  if r.birthday.isSome then .error "Only one birthday allowed per record."
  else .ok { r with birthday := some b }

/-- Loop body of `Record.edit_phone`: replace the first phone whose value
equals `old` with a freshly constructed `Phone new`, then stop; the
`Phone` constructor runs only when a match is found, so its `ValueError`
is raised only then. -/
def editPhones (old newv : String) : List Phone → Except String (List Phone)
  | [] => .ok []
  | p :: ps =>
    if p.value = old then (mkPhone newv).map (· :: ps)
    else (editPhones old newv ps).map (p :: ·)

/-- `Record.edit_phone old new`: in-place first-match replacement;
silent no-op when `old` is absent. -/
def Record.edit_phone (r : Record) (old newv : String) : Except String Record :=
  (editPhones old newv r.phones).map fun ps => { r with phones := ps }

/-- `Record.find_phone`: first phone with the given value, else `None`. -/
def Record.find_phone (r : Record) (number : String) : Option Phone :=
  r.phones.find? fun p => p.value == number

/-- The address book (class `AddressBook`): its `UserDict` data is an
insertion-ordered association list with unique keys. -/
abbrev AddressBook := List (String × Record)

/-- Python dict assignment `data[k] = v`: updates the existing entry in
place, else appends. -/
def dictInsert : AddressBook → String → Record → AddressBook
  | [], k, v => [(k, v)]
  | (k', v') :: rest, k, v =>
    if k' = k then (k', v) :: rest else (k', v') :: dictInsert rest k v

/-- `AddressBook.add_record`: stores the record under its own name. -/
def AddressBook.add_record (book : AddressBook) (r : Record) : AddressBook :=
  dictInsert book r.name r

/-- `AddressBook.find`: `data.get(name)`. -/
def AddressBook.find : AddressBook → String → Option Record
  | [], _ => none
  | (k, v) :: rest, name =>
    if k = name then some v else AddressBook.find rest name

/-- `AddressBook.delete`: removes the entry if present, silently
otherwise. -/
def AddressBook.delete : AddressBook → String → AddressBook
  | [], _ => []
  | (k, v) :: rest, name =>
    if k = name then rest else (k, v) :: AddressBook.delete rest name

/-- One emitted element of `get_upcoming_birthdays`: the dict
`{"name": ..., "congratulation_date": ...}`. -/
structure Entry where
  name : String
  congratulation_date : String
deriving DecidableEq, Repr

/-- The `date.replace(year = y)` call: reconstructs the date with the new
year, raising `ValueError` ("day is out of range for month") when the
month/day does not exist in `y` — the Feb 29 case. -/
def pyReplaceYear (d : Date) (y : Nat) : Except String Date :=
  match mkDate y d.month d.day with
  | some e => .ok e
  | none => .error "day is out of range for month"

/-- Lines 87–89 of the source: this year's occurrence of the birthday,
rolled to next year when it compares `<` today. -/
def occurrenceOf (today bd : Date) : Except String Date :=
  match pyReplaceYear bd today.year with
  | .error e => .error e
  | .ok bty =>
    if pyDateLt bty today then pyReplaceYear bty (today.year + 1)
    else .ok bty

/-- Lines 92–96 of the source: move a Saturday occurrence 2 days and a
Sunday occurrence 1 day forward; `timedelta` overflow past year 9999 is an
error. -/
def weekendShift (d : Date) : Except String Date :=
  if weekday d = 5 then
    match pyAddDays d 2 with
    | some e => .ok e
    | none => .error "date value out of range"
  else if weekday d = 6 then
    match pyAddDays d 1 with
    | some e => .ok e
    | none => .error "date value out of range"
  else .ok d

/-- Loop body of `get_upcoming_birthdays` for one record: skip records
without a birthday; otherwise compute the occurrence, keep it when
`0 ≤ days_until ≤ 7`, weekend-shift it and emit the entry. -/
def processRecord (today : Date) (r : Record) : Except String (Option Entry) :=
  match r.birthday with
  | none => .ok none
  | some b =>
    match occurrenceOf today b.date_value with
    | .error e => .error e
    | .ok bty =>
      if 0 ≤ daysBetween bty today ∧ daysBetween bty today ≤ 7 then
        match weekendShift bty with
        | .error e => .error e
        | .ok sh => .ok (some ⟨r.name, fmtYMD sh⟩)
      else .ok none

/-- The loop of `get_upcoming_birthdays` over `data.values()` in
insertion order; an exception anywhere aborts the whole call. -/
def processAll (today : Date) : List (String × Record) → Except String (List Entry)
  | [] => .ok []
  | (_, r) :: rest =>
    match processRecord today r with
    | .error e => .error e
    | .ok none => processAll today rest
    | .ok (some entry) => (processAll today rest).map (entry :: ·)

/-- `AddressBook.get_upcoming_birthdays`, with the ambient
`datetime.today().date()` made an explicit argument. -/
def AddressBook.get_upcoming_birthdays (book : AddressBook) (today : Date) :
    Except String (List Entry) :=
  processAll today book

/-- The `add_contact` handler under its `input_error` wrapper: the caught
`ValueError` text is returned as the message. A new record is inserted
before the phone is validated; `if phone:` is Python string truthiness,
so an empty phone string skips `add_phone` entirely. Mutation of the
aliased record inside the book is modelled by re-inserting the updated
record under the same key. -/
def add_contact (name phone : String) (book : AddressBook) : String × AddressBook :=
  match book.find name with
  | some r =>
    if phone ≠ "" then
      match r.add_phone phone with
      | .ok r2 => ("Contact updated.", dictInsert book name r2)
      | .error e => (e, book)
    else ("Contact updated.", book)
  | none =>
    let r : Record := ⟨name, [], none⟩
    let book1 := book.add_record r
    if phone ≠ "" then
      match r.add_phone phone with
      | .ok r2 => ("Contact added.", book1.add_record r2)
      | .error e => (e, book1)
    else ("Contact added.", book1)

/-- Truth of an `Except` computation having succeeded. -/
def exceptOk : Except String α → Bool
  | .ok _ => true
  | .error _ => false

/-- All-names key invariant of the address book: every entry is keyed by
the name of the record it holds. -/
def keysInv (book : AddressBook) : Prop :=
  ∀ kv ∈ book, kv.2.name = kv.1

/-- Uniqueness of keys in the address book. -/
def keysNodup (book : AddressBook) : Prop :=
  (book.map Prod.fst).Nodup

theorem dictInsert_find_self (book : AddressBook) (k : String) (v : Record) :
    AddressBook.find (dictInsert book k v) k = some v := by
  induction book with
  | nil => simp [dictInsert, AddressBook.find]
  | cons kv rest ih =>
    obtain ⟨k1, v1⟩ := kv
    by_cases h : k1 = k
    · simp [dictInsert, AddressBook.find, h]
    · simp [dictInsert, AddressBook.find, h, ih]

theorem dictInsert_find_other (book : AddressBook) (k k2 : String) (v : Record)
    (h : k2 ≠ k) : AddressBook.find (dictInsert book k v) k2 = AddressBook.find book k2 := by
  have hk : ¬ k = k2 := fun he => h he.symm
  induction book with
  | nil => simp [dictInsert, AddressBook.find, hk]
  | cons kv rest ih =>
    obtain ⟨k1, v1⟩ := kv
    by_cases h1 : k1 = k
    · have he : dictInsert ((k1, v1) :: rest) k v = (k1, v) :: rest := by
        simp [dictInsert, h1]
      have hk12 : ¬ k1 = k2 := h1 ▸ hk
      rw [he]
      simp [AddressBook.find, hk12]
    · have he : dictInsert ((k1, v1) :: rest) k v = (k1, v1) :: dictInsert rest k v := by
        simp [dictInsert, h1]
      rw [he]
      by_cases h2 : k1 = k2 <;> simp [AddressBook.find, h2, ih]

theorem dictInsert_mem_keys (book : AddressBook) (k a : String) (v : Record) :
    a ∈ (dictInsert book k v).map Prod.fst ↔ a ∈ book.map Prod.fst ∨ a = k := by
  induction book with
  | nil => simp [dictInsert]
  | cons kv rest ih =>
    obtain ⟨k1, v1⟩ := kv
    by_cases h : k1 = k
    · subst h
      simp [dictInsert]
      tauto
    · simp [dictInsert, h, ih]
      tauto

theorem dictInsert_keysNodup (book : AddressBook) (k : String) (v : Record)
    (h : keysNodup book) : keysNodup (dictInsert book k v) := by
  induction book with
  | nil => simp [dictInsert, keysNodup]
  | cons kv rest ih =>
    obtain ⟨k1, v1⟩ := kv
    simp only [keysNodup, List.map_cons, List.nodup_cons] at h
    by_cases h1 : k1 = k
    · simpa [dictInsert, h1, keysNodup] using h
    · have h2 := ih h.2
      have he : dictInsert ((k1, v1) :: rest) k v = (k1, v1) :: dictInsert rest k v := by
        simp [dictInsert, h1]
      show ((dictInsert ((k1, v1) :: rest) k v).map Prod.fst).Nodup
      rw [he, List.map_cons, List.nodup_cons]
      refine ⟨?_, h2⟩
      intro hmem
      rcases (dictInsert_mem_keys rest k k1 v).mp hmem with hm | rfl
      · exact h.1 hm
      · exact h1 rfl

theorem dictInsert_keysInv (book : AddressBook) (r : Record)
    (h : keysInv book) : keysInv (dictInsert book r.name r) := by
  induction book with
  | nil =>
    intro kv hkv
    simp [dictInsert] at hkv
    simp [hkv]
  | cons kv0 rest ih =>
    obtain ⟨k1, v1⟩ := kv0
    have h1 : keysInv rest := fun kv hkv => h kv (List.mem_cons_of_mem _ hkv)
    by_cases hk : k1 = r.name
    · intro kv hkv
      simp only [dictInsert, if_pos hk] at hkv
      rcases List.mem_cons.mp hkv with rfl | hmem
      · simpa using hk.symm
      · exact h1 kv hmem
    · intro kv hkv
      simp only [dictInsert, if_neg hk] at hkv
      rcases List.mem_cons.mp hkv with rfl | hmem
      · exact h ⟨k1, v1⟩ (List.mem_cons_self _ _)
      · exact ih h1 kv hmem

/-- C1: the spec requires a birthday of February 29 to map to a
well-defined result in every reference year, but the code's
`birthday.replace(year=today.year)` raises `ValueError` whenever the
target year is not a leap year, so `get_upcoming_birthdays` fails for
such a record instead of producing a result. The theorem evaluates the
embedded code at the failing input: the birthday `"29.02.2024"` is
constructible, yet the calculation for `today = 2025-03-01` errors. -/
theorem C1_feb29_not_total :
    mkBirthday "29.02.2024" = .ok ⟨"29.02.2024", ⟨2024, 2, 29⟩⟩ ∧
    AddressBook.get_upcoming_birthdays
      [("Mark", ⟨"Mark", [], some ⟨"29.02.2024", ⟨2024, 2, 29⟩⟩⟩)] ⟨2025, 3, 1⟩
      = .error "day is out of range for month" := by
  constructor <;> rfl

/-- C8: adding a birthday to a record that already has one always fails
with the state error, whatever the new value is; since the embedding is
immutable the error return means the existing birthday is untouched. -/
theorem C8_single_birthday (r : Record) (b0 b : Birthday)
    (h : r.birthday = some b0) :
    r.add_birthday b = .error "Only one birthday allowed per record." := by
  simp [Record.add_birthday, h]

/-- C8 witness at a concrete record and birthday. -/
theorem C8_single_birthday_witness :
    (Record.mk "Ann" [] (some ⟨"01.01.1990", ⟨1990, 1, 1⟩⟩)).add_birthday
        ⟨"02.03.1991", ⟨1991, 3, 2⟩⟩
      = .error "Only one birthday allowed per record." :=
  C8_single_birthday _ ⟨"01.01.1990", ⟨1990, 1, 1⟩⟩ _ rfl

theorem editPhones_absent (old newv : String) :
    ∀ ps : List Phone, (∀ p ∈ ps, p.value ≠ old) →
      editPhones old newv ps = .ok ps := by
  intro ps
  induction ps with
  | nil => intro _; rfl
  | cons p ps ih =>
    intro h
    have hp : p.value ≠ old := h p (List.mem_cons_self _ _)
    have hps := ih fun q hq => h q (List.mem_cons_of_mem _ hq)
    simp [editPhones, hp, hps, Except.map]

/-- C7: when no phone equals `old`, `edit_phone` never constructs the new
`Phone` (the constructor sits inside the matching branch of the loop), so
no error is raised even for an invalid `new` value and the record is
returned unchanged. -/
theorem C7_edit_absent_noop (r : Record) (old newv : String)
    (h : ∀ p ∈ r.phones, p.value ≠ old) :
    r.edit_phone old newv = .ok r := by
  simp [Record.edit_phone, editPhones_absent old newv r.phones h, Except.map]

/-- C7 witness: the absent number with an invalid replacement string is a
silent no-op. -/
theorem C7_edit_absent_noop_witness :
    (Record.mk "Ann" [⟨"1234567890"⟩] none).edit_phone "0000000000" "12"
      = .ok (Record.mk "Ann" [⟨"1234567890"⟩] none) :=
  C7_edit_absent_noop _ _ _ (by decide)

/-- C4: the `Phone` constructor succeeds exactly on strings of ten
decimal digits, and then stores the string verbatim; on every other
string it raises the validation error. -/
theorem C4_phone_validation (s : String) :
    (exceptOk (mkPhone s) = true ↔
      s.length = 10 ∧ ∀ c ∈ s.data, c.isDigit = true) ∧
    (∀ p, mkPhone s = .ok p → p.value = s) ∧
    (¬ (s.length = 10 ∧ ∀ c ∈ s.data, c.isDigit = true) →
      mkPhone s = .error "Phone number must be a string of 10 digits.") := by
  have hdl : s.length = s.data.length := rfl
  by_cases hc : (py_isdigit s && s.length == 10) = true
  · have hparts : s.length = 10 ∧ ∀ c ∈ s.data, c.isDigit = true := by
      simp only [py_isdigit, Bool.and_eq_true, Bool.not_eq_true', beq_iff_eq,
        List.all_eq_true] at hc
      exact ⟨hc.2, fun c hm => hc.1.2 c hm⟩
    have hok : mkPhone s = .ok ⟨s⟩ := by simp [mkPhone, hc]
    refine ⟨?_, ?_, ?_⟩
    · exact ⟨fun _ => hparts, fun _ => by rw [hok]; rfl⟩
    · intro p hp
      rw [hok] at hp
      cases hp
      rfl
    · intro hnot
      exact absurd hparts hnot
  · have herr : mkPhone s = .error "Phone number must be a string of 10 digits." := by
      simp [mkPhone, hc]
    have hnparts : ¬ (s.length = 10 ∧ ∀ c ∈ s.data, c.isDigit = true) := by
      rintro ⟨hlen, hdig⟩
      apply hc
      have hne : s.data.isEmpty = false := by
        cases hd : s.data with
        | nil =>
          rw [hdl, hd] at hlen
          simp at hlen
        | cons a l => simp
      simp only [py_isdigit, Bool.and_eq_true, Bool.not_eq_true', beq_iff_eq,
        List.all_eq_true]
      exact ⟨⟨hne, fun c hm => hdig c hm⟩, hlen⟩
    refine ⟨?_, ?_, ?_⟩
    · simp only [herr, exceptOk]
      exact ⟨fun h => absurd h (by simp), fun h => absurd h hnparts⟩
    · intro p hp
      rw [herr] at hp
      cases hp
    · intro _
      exact herr

/-- C4 witness at a valid and an invalid input. -/
theorem C4_phone_validation_witness :
    (exceptOk (mkPhone "0123456789") = true ↔
      String.length "0123456789" = 10 ∧
        ∀ c ∈ "0123456789".data, c.isDigit = true) ∧
    (∀ p, mkPhone "0123456789" = .ok p → p.value = "0123456789") ∧
    (¬ (String.length "0123456789" = 10 ∧
        ∀ c ∈ "0123456789".data, c.isDigit = true) →
      mkPhone "0123456789" = .error "Phone number must be a string of 10 digits.") :=
  C4_phone_validation "0123456789"

/-- C9: adding a record under an existing name replaces the prior record
entirely — lookup of that name afterwards yields exactly the new record,
every other name is untouched, and both book invariants (keys equal the
contained record's name; keys unique) are preserved. -/
theorem C9_add_record_overwrites (book : AddressBook) (r : Record) :
    AddressBook.find (book.add_record r) r.name = some r ∧
    (∀ k, k ≠ r.name → AddressBook.find (book.add_record r) k = AddressBook.find book k) ∧
    (keysInv book → keysInv (book.add_record r)) ∧
    (keysNodup book → keysNodup (book.add_record r)) :=
  ⟨dictInsert_find_self book r.name r,
   fun k hk => dictInsert_find_other book r.name k r hk,
   fun h => dictInsert_keysInv book r h,
   fun h => dictInsert_keysNodup book r.name r h⟩

/-- C9 witness: overwriting a name in a concrete one-entry book. -/
theorem C9_add_record_overwrites_witness :
    AddressBook.find
        (AddressBook.add_record [("Ann", ⟨"Ann", [⟨"1234567890"⟩], none⟩)]
          ⟨"Ann", [⟨"0987654321"⟩], none⟩) "Ann"
      = some ⟨"Ann", [⟨"0987654321"⟩], none⟩ ∧
    keysInv (AddressBook.add_record [("Ann", ⟨"Ann", [⟨"1234567890"⟩], none⟩)]
      ⟨"Ann", [⟨"0987654321"⟩], none⟩) := by
  have h := C9_add_record_overwrites [("Ann", ⟨"Ann", [⟨"1234567890"⟩], none⟩)]
    ⟨"Ann", [⟨"0987654321"⟩], none⟩
  refine ⟨h.1, h.2.2.1 ?_⟩
  intro kv hkv
  simp at hkv
  simp [hkv]

/-- C10 counterexample: the empty string fails `Phone` validation, and
`"Alice"` is not in the empty book, yet `add_contact` returns the success
message `"Contact added."` rather than the validation error — the
truthiness guard `if phone:` skips `add_phone` entirely for the empty
string (the empty record is still inserted). -/
theorem C10_counterexample :
    exceptOk (mkPhone "") = false ∧
    add_contact "Alice" "" [] = ("Contact added.", [("Alice", ⟨"Alice", [], none⟩)]) := by
  constructor <;> rfl

/-- C10 (amended): when `add_contact` is called with a name not yet in
the book and a nonempty phone string that fails validation, the
validation-error message is returned to the caller, but the newly created
record with an empty phone sequence remains inserted in the book under
that name — the operation is not atomic on error. -/
theorem C10_nonatomic_insert (name phone : String) (book : AddressBook) (e : String)
    (hfind : AddressBook.find book name = none) (hne : phone ≠ "")
    (hbad : mkPhone phone = .error e) :
    add_contact name phone book = (e, book.add_record ⟨name, [], none⟩) ∧
    AddressBook.find (book.add_record ⟨name, [], none⟩) name = some ⟨name, [], none⟩ := by
  constructor
  · simp [add_contact, hfind, hne, Record.add_phone, hbad, Except.map]
  · exact dictInsert_find_self book name ⟨name, [], none⟩

/-- C10 witness at a concrete failing phone. -/
theorem C10_nonatomic_insert_witness :
    add_contact "Alice" "12" []
      = ("Phone number must be a string of 10 digits.",
          AddressBook.add_record [] ⟨"Alice", [], none⟩) ∧
    AddressBook.find (AddressBook.add_record [] ⟨"Alice", [], none⟩) "Alice"
      = some ⟨"Alice", [], none⟩ :=
  C10_nonatomic_insert "Alice" "12" [] "Phone number must be a string of 10 digits."
    rfl (by decide) rfl

/-- C6 counterexample: a record may contain the old value twice
(duplicates are permitted); `edit_phone` replaces only the first, so
`find_phone old` still succeeds afterwards even though the record
contained the old value and the new value is a valid 10-digit string. -/
theorem C6_counterexample :
    exceptOk (mkPhone "0987654321") = true ∧
    (Record.mk "Bob" [⟨"1234567890"⟩, ⟨"1234567890"⟩] none).edit_phone
        "1234567890" "0987654321"
      = .ok (Record.mk "Bob" [⟨"0987654321"⟩, ⟨"1234567890"⟩] none) ∧
    (Record.mk "Bob" [⟨"0987654321"⟩, ⟨"1234567890"⟩] none).find_phone "1234567890"
      = some ⟨"1234567890"⟩ := by
  refine ⟨rfl, rfl, rfl⟩

theorem mkPhone_ok_value (s : String) (p : Phone) (h : mkPhone s = .ok p) :
    p = ⟨s⟩ := by
  unfold mkPhone at h
  by_cases hc : (py_isdigit s && s.length == 10) = true
  · rw [if_pos hc] at h
    cases h
    rfl
  · rw [if_neg hc] at h
    cases h

theorem editPhones_unique_spec (old newv : String) (np : Phone)
    (hnew : mkPhone newv = .ok np) (hne : newv ≠ old) :
    ∀ ps : List Phone, ps.countP (fun q => q.value == old) = 1 →
    ∃ l1 p0 l2, ps = l1 ++ p0 :: l2 ∧ (∀ q ∈ l1, q.value ≠ old) ∧ p0.value = old ∧
      editPhones old newv ps = .ok (l1 ++ np :: l2) ∧
      (l1 ++ np :: l2).find? (fun q => q.value == old) = none ∧
      (l1 ++ np :: l2).find? (fun q => q.value == newv) = some np ∧
      (l1 ++ np :: l2).length = ps.length := by
  have hnp : np = ⟨newv⟩ := mkPhone_ok_value newv np hnew
  have hnpnew : (np.value == newv) = true := by simp [hnp]
  have hnpold : (np.value == old) = false := by
    rw [hnp]
    exact beq_eq_false_iff_ne.mpr hne
  intro ps
  induction ps with
  | nil =>
    intro h
    simp at h
  | cons p ps ih =>
    intro hcount
    by_cases hp : p.value = old
    · have hb : (p.value == old) = true := by simp [hp]
      have hcc : ps.countP (fun q => q.value == old) + 1 = 1 := by
        simpa [List.countP_cons, hb] using hcount
      have hzero : ps.countP (fun q => q.value == old) = 0 := by omega
      have hmiss : ∀ q ∈ ps, ¬ (((fun q2 : Phone => q2.value == old) q) = true) :=
        List.countP_eq_zero.mp hzero
      refine ⟨[], p, ps, by simp, by simp, hp, ?_, ?_, ?_, by simp⟩
      · simp [editPhones, hp, hnew, Except.map]
      · rw [List.nil_append]
        simp only [List.find?, hnpold, cond_false]
        exact List.find?_eq_none.mpr hmiss
      · rw [List.nil_append]
        simp only [List.find?, hnpnew, cond_true]
    · have hb : (p.value == old) = false := beq_eq_false_iff_ne.mpr hp
      have hcount2 : ps.countP (fun q => q.value == old) = 1 := by
        simpa [List.countP_cons, hb] using hcount
      obtain ⟨l1, p0, l2, h1, h2, h3, h4, h5, h6, h7⟩ := ih hcount2
      refine ⟨p :: l1, p0, l2, by simp [h1], ?_, h3, ?_, ?_, ?_, by simp [h7]⟩
      · intro q hq
        rcases List.mem_cons.mp hq with rfl | hq2
        · exact hp
        · exact h2 q hq2
      · simp [editPhones, hp, h4, Except.map]
      · rw [List.cons_append]
        simp only [List.find?, hb, cond_false]
        exact h5
      · rw [List.cons_append]
        by_cases hpn : p.value = newv
        · have hpe : p = np := by
            rw [hnp]
            cases p
            simpa using hpn
          have hb2 : (p.value == newv) = true := by simp [hpn]
          simp only [List.find?, hb2, cond_true, hpe]
          rw [hnpnew]
        · have hb2 : (p.value == newv) = false := beq_eq_false_iff_ne.mpr hpn
          simp only [List.find?, hb2, cond_false]
          exact h6

/-- C6 (amended): for every record containing exactly one entry equal to
`old_value` and every valid 10-digit `new_value` different from
`old_value`, `edit_phone` replaces that first matching entry in place —
the prefix before it and the suffix after it are untouched and the length
is unchanged — and afterwards `find_phone old_value` returns none while
`find_phone new_value` returns the new number. (The original claim fails
when the old value occurs more than once, since only the first occurrence
is replaced, and when `new_value = old_value`.) -/
theorem C6_edit_phone_replaces (r : Record) (old newv : String) (np : Phone)
    (hcount : r.phones.countP (fun q => q.value == old) = 1)
    (hnew : mkPhone newv = .ok np) (hne : newv ≠ old) :
    ∃ l1 p0 l2,
      r.phones = l1 ++ p0 :: l2 ∧ (∀ q ∈ l1, q.value ≠ old) ∧ p0.value = old ∧
      r.edit_phone old newv = .ok { r with phones := l1 ++ np :: l2 } ∧
      (l1 ++ np :: l2).length = r.phones.length ∧
      Record.find_phone { r with phones := l1 ++ np :: l2 } old = none ∧
      Record.find_phone { r with phones := l1 ++ np :: l2 } newv = some np := by
  obtain ⟨l1, p0, l2, h1, h2, h3, h4, h5, h6, h7⟩ :=
    editPhones_unique_spec old newv np hnew hne r.phones hcount
  exact ⟨l1, p0, l2, h1, h2, h3, by simp [Record.edit_phone, h4, Except.map],
    h7, h5, h6⟩

/-- C6 witness at a concrete record with a unique old value. -/
theorem C6_edit_phone_replaces_witness :
    ∃ l1 p0 l2,
      (Record.mk "Bob" [⟨"1234567890"⟩] none).phones = l1 ++ p0 :: l2 ∧
      (∀ q ∈ l1, q.value ≠ "1234567890") ∧ p0.value = "1234567890" ∧
      (Record.mk "Bob" [⟨"1234567890"⟩] none).edit_phone "1234567890" "0987654321"
        = .ok { Record.mk "Bob" [⟨"1234567890"⟩] none with
                  phones := l1 ++ (⟨"0987654321"⟩ : Phone) :: l2 } ∧
      (l1 ++ (⟨"0987654321"⟩ : Phone) :: l2).length
        = (Record.mk "Bob" [⟨"1234567890"⟩] none).phones.length ∧
      Record.find_phone
          { Record.mk "Bob" [⟨"1234567890"⟩] none with
              phones := l1 ++ (⟨"0987654321"⟩ : Phone) :: l2 } "1234567890" = none ∧
      Record.find_phone
          { Record.mk "Bob" [⟨"1234567890"⟩] none with
              phones := l1 ++ (⟨"0987654321"⟩ : Phone) :: l2 } "0987654321"
        = some ⟨"0987654321"⟩ :=
  C6_edit_phone_replaces (Record.mk "Bob" [⟨"1234567890"⟩] none)
    "1234567890" "0987654321" ⟨"0987654321"⟩ (by decide) rfl (by decide)

theorem processRecord_name (today : Date) (r : Record) (entry : Entry)
    (h : processRecord today r = .ok (some entry)) : entry.name = r.name := by
  cases hb : r.birthday with
  | none =>
    simp [processRecord, hb] at h
  | some b =>
    simp only [processRecord, hb] at h
    cases hocc : occurrenceOf today b.date_value with
    | error e =>
      simp only [hocc] at h
      cases h
    | ok bty =>
      simp only [hocc] at h
      by_cases hc : 0 ≤ daysBetween bty today ∧ daysBetween bty today ≤ 7
      · rw [if_pos hc] at h
        cases hw : weekendShift bty with
        | error e =>
          simp only [hw] at h
          cases h
        | ok sh =>
          simp only [hw] at h
          injection h with h2
          injection h2 with h3
          rw [← h3]
      · rw [if_neg hc] at h
        simp at h

theorem processAll_ok_each (today : Date) :
    ∀ l : List (String × Record), ∀ out : List Entry,
      processAll today l = .ok out →
      ∀ kv ∈ l, ∃ x, processRecord today kv.2 = .ok x := by
  intro l
  induction l with
  | nil =>
    intro out _ kv hkv
    simp at hkv
  | cons kv0 rest ih =>
    intro out h kv hkv
    obtain ⟨k, r2⟩ := kv0
    unfold processAll at h
    cases hp : processRecord today r2 with
    | error e =>
      rw [hp] at h
      cases h
    | ok x =>
      rw [hp] at h
      rcases List.mem_cons.mp hkv with rfl | hm
      · exact ⟨x, hp⟩
      · cases x with
        | none => exact ih out h kv hm
        | some en0 =>
          cases hrest : processAll today rest with
          | error e =>
            rw [hrest] at h
            cases h
          | ok out2 =>
            exact ih out2 hrest kv hm

theorem processAll_mem_iff (today : Date) (nm : String) :
    ∀ l : List (String × Record), ∀ out : List Entry,
      processAll today l = .ok out →
      ((out.any fun e => e.name == nm) = true ↔
        ∃ kv ∈ l, kv.2.name = nm ∧
          ∃ en, processRecord today kv.2 = .ok (some en)) := by
  intro l
  induction l with
  | nil =>
    intro out h
    have hout : out = [] := by
      simpa [processAll] using h
    subst hout
    simp
  | cons kv0 rest ih =>
    intro out h
    obtain ⟨k, r2⟩ := kv0
    unfold processAll at h
    cases hp : processRecord today r2 with
    | error e =>
      rw [hp] at h
      cases h
    | ok x =>
      rw [hp] at h
      cases x with
      | none =>
        rw [ih out h]
        constructor
        · rintro ⟨kv2, hm, hrest⟩
          exact ⟨kv2, List.mem_cons_of_mem _ hm, hrest⟩
        · rintro ⟨kv2, hm, hname, en, hen⟩
          rcases List.mem_cons.mp hm with rfl | hm2
          · rw [hp] at hen
            simp at hen
          · exact ⟨kv2, hm2, hname, en, hen⟩
      | some en0 =>
        cases hrest : processAll today rest with
        | error e =>
          rw [hrest] at h
          cases h
        | ok out2 =>
          rw [hrest] at h
          simp only [Except.map] at h
          injection h with h2
          subst h2
          have hname0 : en0.name = r2.name := processRecord_name today r2 en0 hp
          rw [List.any_cons, Bool.or_eq_true, ih out2 hrest]
          constructor
          · rintro (hbeq | ⟨kv2, hm, hrec⟩)
            · refine ⟨(k, r2), List.mem_cons_self _ _, ?_, en0, hp⟩
              have he : en0.name = nm := by simpa using hbeq
              rw [← hname0]
              exact he
            · exact ⟨kv2, List.mem_cons_of_mem _ hm, hrec⟩
          · rintro ⟨kv2, hm, hname, en, hen⟩
            rcases List.mem_cons.mp hm with rfl | hm2
            · left
              simp only [beq_iff_eq]
              rw [hname0]
              exact hname
            · right
              exact ⟨kv2, hm2, hname, en, hen⟩

theorem book_record_unique : ∀ book : AddressBook,
    (book.map fun kv => kv.2.name).Nodup →
    ∀ kv1 ∈ book, ∀ kv2 ∈ book, kv1.2.name = kv2.2.name → kv1.2 = kv2.2 := by
  intro book
  induction book with
  | nil =>
    intro _ kv1 h1
    simp at h1
  | cons a l ih =>
    intro hnd kv1 h1 kv2 h2 heq
    simp only [List.map_cons, List.nodup_cons] at hnd
    rcases List.mem_cons.mp h1 with rfl | h1m
    · rcases List.mem_cons.mp h2 with rfl | h2m
      · rfl
      · exfalso
        apply hnd.1
        rw [heq]
        exact List.mem_map.mpr ⟨kv2, h2m, rfl⟩
    · rcases List.mem_cons.mp h2 with rfl | h2m
      · exfalso
        apply hnd.1
        rw [← heq]
        exact List.mem_map.mpr ⟨kv1, h1m, rfl⟩
      · exact ih hnd.2 kv1 h1m kv2 h2m heq

/-- C2: for a record of the book with a birthday whose occurrence (this
year's same month and day, rolled to next year when it has already passed
today) is `occ`, the record appears in the output of
`get_upcoming_birthdays` exactly when `0 ≤ occ − today ≤ 7` in whole
days; moreover for `today = 2024-12-28` and birthday `01.01` the
occurrence used is `2025-01-01`, a birthday exactly 7 days out is
included, and one exactly 8 days out is excluded. -/
theorem C2_inclusion_iff (today : Date) (book : AddressBook) (r : Record) (b : Birthday)
    (occ : Date) (out : List Entry)
    (hmem : r ∈ book.map Prod.snd)
    (hnames : (book.map fun kv => kv.2.name).Nodup)
    (hb : r.birthday = some b)
    (hocc : occurrenceOf today b.date_value = .ok occ)
    (hok : book.get_upcoming_birthdays today = .ok out) :
    ((out.any fun e => e.name == r.name) = true ↔
      (0 ≤ daysBetween occ today ∧ daysBetween occ today ≤ 7)) ∧
    occurrenceOf ⟨2024, 12, 28⟩ ⟨1990, 1, 1⟩ = .ok ⟨2025, 1, 1⟩ ∧
    AddressBook.get_upcoming_birthdays
        [("Ann", ⟨"Ann", [], some ⟨"17.06.1990", ⟨1990, 6, 17⟩⟩⟩)] ⟨2024, 6, 10⟩
      = .ok [⟨"Ann", "2024.06.17"⟩] ∧
    AddressBook.get_upcoming_birthdays
        [("Ben", ⟨"Ben", [], some ⟨"18.06.1990", ⟨1990, 6, 18⟩⟩⟩)] ⟨2024, 6, 10⟩
      = .ok [] := by
  refine ⟨?_, rfl, rfl, rfl⟩
  obtain ⟨kv0, hkv0, hkv0r⟩ := List.mem_map.mp hmem
  rw [processAll_mem_iff today r.name book out hok]
  constructor
  · rintro ⟨kv2, hm2, hname2, en, hen⟩
    have hr2 : kv2.2 = r := by
      have he := book_record_unique book hnames kv2 hm2 kv0 hkv0 (by rw [hname2, ← hkv0r])
      rw [he, hkv0r]
    rw [hr2] at hen
    simp only [processRecord, hb, hocc] at hen
    by_cases hc : 0 ≤ daysBetween occ today ∧ daysBetween occ today ≤ 7
    · exact hc
    · rw [if_neg hc] at hen
      simp at hen
  · intro hc
    refine ⟨kv0, hkv0, by rw [hkv0r], ?_⟩
    obtain ⟨x, hx⟩ := processAll_ok_each today book out hok kv0 hkv0
    rw [hkv0r] at hx ⊢
    simp only [processRecord, hb, hocc] at hx ⊢
    rw [if_pos hc] at hx ⊢
    cases hw : weekendShift occ with
    | error e =>
      simp only [hw] at hx
      cases hx
    | ok sh =>
      simp only [hw]
      exact ⟨⟨r.name, fmtYMD sh⟩, rfl⟩

/-- C2 witness: a concrete book, today, occurrence and output. -/
theorem C2_inclusion_iff_witness :
    (((([⟨"John", "2024.06.17"⟩] : List Entry).any fun e => e.name == "John") = true ↔
      (0 ≤ daysBetween ⟨2024, 6, 15⟩ ⟨2024, 6, 10⟩ ∧
        daysBetween ⟨2024, 6, 15⟩ ⟨2024, 6, 10⟩ ≤ 7)) ∧
    occurrenceOf ⟨2024, 12, 28⟩ ⟨1990, 1, 1⟩ = .ok ⟨2025, 1, 1⟩ ∧
    AddressBook.get_upcoming_birthdays
        [("Ann", ⟨"Ann", [], some ⟨"17.06.1990", ⟨1990, 6, 17⟩⟩⟩)] ⟨2024, 6, 10⟩
      = .ok [⟨"Ann", "2024.06.17"⟩] ∧
    AddressBook.get_upcoming_birthdays
        [("Ben", ⟨"Ben", [], some ⟨"18.06.1990", ⟨1990, 6, 18⟩⟩⟩)] ⟨2024, 6, 10⟩
      = .ok []) :=
  C2_inclusion_iff ⟨2024, 6, 10⟩
    [("John", ⟨"John", [], some ⟨"15.06.1990", ⟨1990, 6, 15⟩⟩⟩)]
    ⟨"John", [], some ⟨"15.06.1990", ⟨1990, 6, 15⟩⟩⟩
    ⟨"15.06.1990", ⟨1990, 6, 15⟩⟩ ⟨2024, 6, 15⟩ [⟨"John", "2024.06.17"⟩]
    (by decide) (by decide) rfl rfl rfl

theorem daysInMonth_pos (y m : Nat) : 1 ≤ daysInMonth y m := by
  unfold daysInMonth
  split_ifs <;> norm_num

theorem daysBeforeMonth_succ (y m : Nat) (h1 : 1 ≤ m) (h2 : m ≤ 11) :
    daysBeforeMonth y (m + 1) = daysBeforeMonth y m + daysInMonth y m := by
  interval_cases m <;> cases hL : isLeap y <;>
    norm_num [daysBeforeMonth, daysBeforeMonthTable, daysInMonth, hL]

theorem daysBeforeYear_succ (y : Nat) (hy : 1 ≤ y) :
    daysBeforeYear (y + 1) = daysBeforeYear y + 365 + (if isLeap y then 1 else 0) := by
  obtain ⟨z, rfl⟩ : ∃ z, y = z + 1 := ⟨y - 1, by omega⟩
  unfold daysBeforeYear
  simp only [Nat.add_sub_cancel]
  have hle : z / 100 ≤ z / 4 := Nat.div_le_div_left (by norm_num) (by norm_num)
  have hleap : isLeap (z + 1) = true ↔
      (4 ∣ (z + 1) ∧ (¬ 100 ∣ (z + 1) ∨ 400 ∣ (z + 1))) := by
    simp [isLeap, Nat.dvd_iff_mod_eq_zero]
  by_cases hd4 : 4 ∣ (z + 1)
  · by_cases hd100 : 100 ∣ (z + 1)
    · by_cases hd400 : 400 ∣ (z + 1)
      · have hL : isLeap (z + 1) = true := hleap.mpr ⟨hd4, Or.inr hd400⟩
        rw [Nat.succ_div_of_dvd hd4, Nat.succ_div_of_dvd hd100,
          Nat.succ_div_of_dvd hd400, hL, if_pos rfl]
        omega
      · have hL : isLeap (z + 1) = false := by
          cases hLb : isLeap (z + 1)
          · rfl
          · rcases (hleap.mp hLb).2 with hc | hc
            · exact absurd hd100 hc
            · exact absurd hc hd400
        rw [Nat.succ_div_of_dvd hd4, Nat.succ_div_of_dvd hd100,
          Nat.succ_div_of_not_dvd hd400, hL, if_neg Bool.false_ne_true]
        omega
    · by_cases hd400 : 400 ∣ (z + 1)
      · exact absurd (dvd_trans (by norm_num : (100:ℕ) ∣ 400) hd400) hd100
      · have hL : isLeap (z + 1) = true := hleap.mpr ⟨hd4, Or.inl hd100⟩
        rw [Nat.succ_div_of_dvd hd4, Nat.succ_div_of_not_dvd hd100,
          Nat.succ_div_of_not_dvd hd400, hL, if_pos rfl]
        omega
  · have hnd100 : ¬ 100 ∣ (z + 1) := fun hc => hd4 (dvd_trans (by norm_num) hc)
    have hnd400 : ¬ 400 ∣ (z + 1) := fun hc => hd4 (dvd_trans (by norm_num) hc)
    have hL : isLeap (z + 1) = false := by
      cases hLb : isLeap (z + 1)
      · rfl
      · exact absurd (hleap.mp hLb).1 hd4
    rw [Nat.succ_div_of_not_dvd hd4, Nat.succ_div_of_not_dvd hnd100,
      Nat.succ_div_of_not_dvd hnd400, hL, if_neg Bool.false_ne_true]
    omega

theorem nextDay_spec (d e : Date) (hv : d.valid = true) (h : nextDay d = some e) :
    e.valid = true ∧ toOrdinal e = toOrdinal d + 1 := by
  obtain ⟨y, m, dd⟩ := d
  simp only [Date.valid, Bool.and_eq_true, decide_eq_true_eq] at hv
  obtain ⟨⟨⟨⟨⟨hy1, hy2⟩, hm1⟩, hm2⟩, hd1⟩, hd2⟩ := hv
  unfold nextDay at h
  simp only at h
  by_cases h1 : dd < daysInMonth y m
  · rw [if_pos h1] at h
    injection h with he
    subst he
    constructor
    · simp only [Date.valid, Bool.and_eq_true, decide_eq_true_eq]
      omega
    · simp only [toOrdinal]
      omega
  · rw [if_neg h1] at h
    have hdd : dd = daysInMonth y m := by omega
    by_cases h2 : m < 12
    · rw [if_pos h2] at h
      injection h with he
      subst he
      have hp := daysInMonth_pos y (m + 1)
      have hsucc := daysBeforeMonth_succ y m hm1 (by omega)
      constructor
      · simp only [Date.valid, Bool.and_eq_true, decide_eq_true_eq]
        omega
      · simp only [toOrdinal]
        omega
    · rw [if_neg h2] at h
      by_cases h3 : y < 9999
      · rw [if_pos h3] at h
        injection h with he
        subst he
        have hm12 : m = 12 := by omega
        subst hm12
        have hy' := daysBeforeYear_succ y hy1
        have hdbm1 : daysBeforeMonth (y + 1) 1 = 0 := by
          simp [daysBeforeMonth, daysBeforeMonthTable]
        have hdbm12 : daysBeforeMonth y 12 = 334 + (if isLeap y then 1 else 0) := by
          by_cases hL : isLeap y = true <;>
            simp [daysBeforeMonth, daysBeforeMonthTable, hL]
        have hd31 : daysInMonth y 12 = 31 := rfl
        have hp := daysInMonth_pos (y + 1) 1
        constructor
        · simp only [Date.valid, Bool.and_eq_true, decide_eq_true_eq]
          omega
        · simp only [toOrdinal]
          rw [hdbm1, hdbm12, hy', hdd, hd31]
          by_cases hL : isLeap y = true
          · simp [hL]
          · simp [hL]
      · rw [if_neg h3] at h
        cases h

theorem pyAddDays_spec : ∀ n : Nat, ∀ d e : Date, d.valid = true →
    pyAddDays d n = some e → e.valid = true ∧ toOrdinal e = toOrdinal d + n := by
  intro n
  induction n with
  | zero =>
    intro d e hv h
    simp only [pyAddDays] at h
    injection h with he
    subst he
    exact ⟨hv, by omega⟩
  | succ k ih =>
    intro d e hv h
    simp only [pyAddDays] at h
    cases hnd : nextDay d with
    | none =>
      rw [hnd] at h
      cases h
    | some d2 =>
      rw [hnd] at h
      simp only [Option.bind] at h
      have hstep := nextDay_spec d d2 hv hnd
      have hrest := ih d2 e hstep.1 h
      exact ⟨hrest.1, by omega⟩

theorem mkDate_valid (y m dd : Nat) (dt : Date) (h : mkDate y m dd = some dt) :
    dt.valid = true ∧ dt = ⟨y, m, dd⟩ := by
  unfold mkDate at h
  by_cases hv : Date.valid ⟨y, m, dd⟩ = true
  · rw [if_pos hv] at h
    injection h with he
    subst he
    exact ⟨hv, rfl⟩
  · rw [if_neg hv] at h
    cases h

theorem pyReplaceYear_valid (d : Date) (y : Nat) (occ : Date)
    (h : pyReplaceYear d y = .ok occ) : occ.valid = true := by
  unfold pyReplaceYear at h
  cases hm : mkDate y d.month d.day with
  | none =>
    rw [hm] at h
    cases h
  | some dt =>
    rw [hm] at h
    injection h with he
    subst he
    exact (mkDate_valid _ _ _ _ hm).1

theorem occurrenceOf_valid (today bd : Date) (occ : Date)
    (h : occurrenceOf today bd = .ok occ) : occ.valid = true := by
  unfold occurrenceOf at h
  cases h1 : pyReplaceYear bd today.year with
  | error e =>
    simp only [h1] at h
    cases h
  | ok bty =>
    simp only [h1] at h
    by_cases hlt : pyDateLt bty today = true
    · rw [if_pos hlt] at h
      exact pyReplaceYear_valid bty (today.year + 1) occ h
    · rw [if_neg hlt] at h
      injection h with he
      subst he
      exact pyReplaceYear_valid bd today.year bty h1

/-- C3: every entry emitted by the upcoming-birthday loop carries the
occurrence date shifted forward by exactly 2 days when the occurrence is
a Saturday (`weekday = 5`), by exactly 1 day when it is a Sunday
(`weekday = 6`), and unshifted on a weekday; concretely, with
`today = 2024-06-10` and a birthday occurring `2024-06-15` (a Saturday,
5 days out), the record is included with congratulation date
`2024.06.17`. -/
theorem C3_weekend_shift (today : Date) (r : Record) (b : Birthday) (occ : Date)
    (entry : Entry)
    (hb : r.birthday = some b)
    (hocc : occurrenceOf today b.date_value = .ok occ)
    (hproc : processRecord today r = .ok (some entry)) :
    (∃ sh : Date, weekendShift occ = .ok sh ∧
      entry.congratulation_date = fmtYMD sh ∧
      (toOrdinal sh : Int) = (toOrdinal occ : Int) +
        (if weekday occ = 5 then 2 else if weekday occ = 6 then 1 else 0)) ∧
    AddressBook.get_upcoming_birthdays
        [("John", ⟨"John", [], some ⟨"15.06.1990", ⟨1990, 6, 15⟩⟩⟩)] ⟨2024, 6, 10⟩
      = .ok [⟨"John", "2024.06.17"⟩] ∧
    weekday ⟨2024, 6, 15⟩ = 5 ∧
    daysBetween ⟨2024, 6, 15⟩ ⟨2024, 6, 10⟩ = 5 := by
  refine ⟨?_, rfl, rfl, rfl⟩
  have hvalid : occ.valid = true := occurrenceOf_valid today b.date_value occ hocc
  simp only [processRecord, hb, hocc] at hproc
  by_cases hc : 0 ≤ daysBetween occ today ∧ daysBetween occ today ≤ 7
  · rw [if_pos hc] at hproc
    cases hw : weekendShift occ with
    | error e =>
      simp only [hw] at hproc
      cases hproc
    | ok sh =>
      simp only [hw] at hproc
      injection hproc with h2
      injection h2 with h3
      refine ⟨sh, rfl, by rw [← h3], ?_⟩
      unfold weekendShift at hw
      by_cases h5 : weekday occ = 5
      · rw [if_pos h5] at hw
        cases ha : pyAddDays occ 2 with
        | none =>
          rw [ha] at hw
          cases hw
        | some e2 =>
          rw [ha] at hw
          injection hw with he
          subst he
          have hord := (pyAddDays_spec 2 occ e2 hvalid ha).2
          rw [if_pos h5]
          omega
      · rw [if_neg h5] at hw
        by_cases h6 : weekday occ = 6
        · rw [if_pos h6] at hw
          cases ha : pyAddDays occ 1 with
          | none =>
            rw [ha] at hw
            cases hw
          | some e2 =>
            rw [ha] at hw
            injection hw with he
            subst he
            have hord := (pyAddDays_spec 1 occ e2 hvalid ha).2
            rw [if_neg h5, if_pos h6]
            omega
        · rw [if_neg h6] at hw
          injection hw with he
          subst he
          rw [if_neg h5, if_neg h6]
          omega
  · rw [if_neg hc] at hproc
    simp at hproc

/-- C3 witness at the concrete weekend-shift example. -/
theorem C3_weekend_shift_witness :
    ((∃ sh : Date, weekendShift ⟨2024, 6, 15⟩ = .ok sh ∧
      (Entry.mk "John" "2024.06.17").congratulation_date = fmtYMD sh ∧
      (toOrdinal sh : Int) = (toOrdinal (⟨2024, 6, 15⟩ : Date) : Int) +
        (if weekday ⟨2024, 6, 15⟩ = 5 then 2
          else if weekday ⟨2024, 6, 15⟩ = 6 then 1 else 0)) ∧
    AddressBook.get_upcoming_birthdays
        [("John", ⟨"John", [], some ⟨"15.06.1990", ⟨1990, 6, 15⟩⟩⟩)] ⟨2024, 6, 10⟩
      = .ok [⟨"John", "2024.06.17"⟩] ∧
    weekday ⟨2024, 6, 15⟩ = 5 ∧
    daysBetween ⟨2024, 6, 15⟩ ⟨2024, 6, 10⟩ = 5) :=
  C3_weekend_shift ⟨2024, 6, 10⟩
    ⟨"John", [], some ⟨"15.06.1990", ⟨1990, 6, 15⟩⟩⟩
    ⟨"15.06.1990", ⟨1990, 6, 15⟩⟩ ⟨2024, 6, 15⟩ ⟨"John", "2024.06.17"⟩
    rfl rfl rfl

/-- Modelled from the spec claim's words: the strict `DD.MM.YYYY` form —
exactly two digits, a dot, two digits, a dot, and four digits. -/
def specFormatDDMMYYYY (s : String) : Bool :=
  match s.data with
  | [d1, d2, s1, m1, m2, s2, y1, y2, y3, y4] =>
    s1 = '.' && s2 = '.' && d1.isDigit && d2.isDigit && m1.isDigit && m2.isDigit &&
      y1.isDigit && y2.isDigit && y3.isDigit && y4.isDigit
  | _ => false

/-- C5 counterexample: `"1.06.1990"` does not match the `DD.MM.YYYY`
form (one-digit day), so by the claim its construction should raise, yet
the `Birthday` constructor succeeds — `strptime` lets day and month drop
the leading zero. -/
theorem C5_counterexample :
    specFormatDDMMYYYY "1.06.1990" = false ∧
    mkBirthday "1.06.1990" = .ok ⟨"1.06.1990", ⟨1990, 6, 1⟩⟩ := by
  constructor <;> rfl

/-- Modelled from the amended claim's words: the lenient day.month.year
form that `strptime("%d.%m.%Y")` accepts — day written with one digit
1–9 or two digits of value 1–31, month with one digit 1–9 or two digits
of value 1–12, year with exactly four digits, separated by literal dots,
nothing before or after. Returns the denoted (day, month, year). -/
def specLenientDMY : List Char → Option (Nat × Nat × Nat)
  | [a1, a2, a3, a4, a5, a6, a7, a8] =>
    if a2 = '.' ∧ a4 = '.' ∧ a1.isDigit ∧ 1 ≤ digitVal a1 ∧ digitVal a1 ≤ 9 ∧
        a3.isDigit ∧ 1 ≤ digitVal a3 ∧ digitVal a3 ≤ 9 ∧
        a5.isDigit ∧ a6.isDigit ∧ a7.isDigit ∧ a8.isDigit then
      some (digitVal a1, digitVal a3,
        1000 * digitVal a5 + 100 * digitVal a6 + 10 * digitVal a7 + digitVal a8)
    else none
  | [a1, a2, a3, a4, a5, a6, a7, a8, a9] =>
    if a3 = '.' ∧ a5 = '.' ∧ a1.isDigit ∧ a2.isDigit ∧
        1 ≤ 10 * digitVal a1 + digitVal a2 ∧ 10 * digitVal a1 + digitVal a2 ≤ 31 ∧
        a4.isDigit ∧ 1 ≤ digitVal a4 ∧ digitVal a4 ≤ 9 ∧
        a6.isDigit ∧ a7.isDigit ∧ a8.isDigit ∧ a9.isDigit then
      some (10 * digitVal a1 + digitVal a2, digitVal a4,
        1000 * digitVal a6 + 100 * digitVal a7 + 10 * digitVal a8 + digitVal a9)
    else if a2 = '.' ∧ a5 = '.' ∧ a1.isDigit ∧ 1 ≤ digitVal a1 ∧ digitVal a1 ≤ 9 ∧
        a3.isDigit ∧ a4.isDigit ∧
        1 ≤ 10 * digitVal a3 + digitVal a4 ∧ 10 * digitVal a3 + digitVal a4 ≤ 12 ∧
        a6.isDigit ∧ a7.isDigit ∧ a8.isDigit ∧ a9.isDigit then
      some (digitVal a1, 10 * digitVal a3 + digitVal a4,
        1000 * digitVal a6 + 100 * digitVal a7 + 10 * digitVal a8 + digitVal a9)
    else none
  | [a1, a2, a3, a4, a5, a6, a7, a8, a9, a10] =>
    if a3 = '.' ∧ a6 = '.' ∧ a1.isDigit ∧ a2.isDigit ∧
        1 ≤ 10 * digitVal a1 + digitVal a2 ∧ 10 * digitVal a1 + digitVal a2 ≤ 31 ∧
        a4.isDigit ∧ a5.isDigit ∧
        1 ≤ 10 * digitVal a4 + digitVal a5 ∧ 10 * digitVal a4 + digitVal a5 ≤ 12 ∧
        a7.isDigit ∧ a8.isDigit ∧ a9.isDigit ∧ a10.isDigit then
      some (10 * digitVal a1 + digitVal a2, 10 * digitVal a4 + digitVal a5,
        1000 * digitVal a7 + 100 * digitVal a8 + 10 * digitVal a9 + digitVal a10)
    else none
  | _ => none

theorem pyNum2_some (hi : Nat) (cs : List Char) (v : Nat) (rest : List Char)
    (h : pyNum2 1 hi cs = some (v, rest)) :
    (∃ c1 c2 rest2, cs = c1 :: c2 :: rest2 ∧ rest = rest2 ∧ c1.isDigit = true ∧
      c2.isDigit = true ∧ 1 ≤ v ∧ v ≤ hi ∧ v = 10 * digitVal c1 + digitVal c2) ∨
    (∃ c1, cs = c1 :: rest ∧ c1.isDigit = true ∧ 1 ≤ v ∧ v ≤ 9 ∧ v = digitVal c1) := by
  match cs with
  | [] => simp [pyNum2] at h
  | [c] =>
    right
    simp only [pyNum2] at h
    split_ifs at h with hc
    simp only [Option.some.injEq, Prod.mk.injEq] at h
    obtain ⟨hv, hr⟩ := h
    exact ⟨c, by rw [← hr], hc.1, by omega, by omega, hv.symm⟩
  | c1 :: c2 :: rest2 =>
    simp only [pyNum2] at h
    by_cases h1 : c1.isDigit = true
    · rw [if_pos h1] at h
      by_cases h2 : c2.isDigit = true
      · rw [if_pos h2] at h
        by_cases h3 : 1 ≤ 10 * digitVal c1 + digitVal c2 ∧ 10 * digitVal c1 + digitVal c2 ≤ hi
        · rw [if_pos h3] at h
          simp only [Option.some.injEq, Prod.mk.injEq] at h
          obtain ⟨hv, hr⟩ := h
          exact Or.inl ⟨c1, c2, rest2, rfl, hr.symm, h1, h2, by omega, by omega, hv.symm⟩
        · rw [if_neg h3] at h
          by_cases h4 : 1 ≤ digitVal c1 ∧ digitVal c1 ≤ 9
          · rw [if_pos h4] at h
            simp only [Option.some.injEq, Prod.mk.injEq] at h
            obtain ⟨hv, hr⟩ := h
            exact Or.inr ⟨c1, by rw [← hr], h1, by omega, by omega, hv.symm⟩
          · rw [if_neg h4] at h
            simp at h
      · rw [if_neg h2] at h
        by_cases h4 : 1 ≤ digitVal c1 ∧ digitVal c1 ≤ 9
        · rw [if_pos h4] at h
          simp only [Option.some.injEq, Prod.mk.injEq] at h
          obtain ⟨hv, hr⟩ := h
          exact Or.inr ⟨c1, by rw [← hr], h1, by omega, by omega, hv.symm⟩
        · rw [if_neg h4] at h
          simp at h
    · rw [if_neg h1] at h
      simp at h

theorem parse4Y_some (r : List Char) (y : Nat) (rest : List Char)
    (h : parse4Y r = some (y, rest)) :
    ∃ y1 y2 y3 y4, r = y1 :: y2 :: y3 :: y4 :: rest ∧
      y1.isDigit = true ∧ y2.isDigit = true ∧ y3.isDigit = true ∧ y4.isDigit = true ∧
      y = 1000 * digitVal y1 + 100 * digitVal y2 + 10 * digitVal y3 + digitVal y4 := by
  match r with
  | [] => simp [parse4Y] at h
  | [a] => simp [parse4Y] at h
  | [a, b] => simp [parse4Y] at h
  | [a, b, c] => simp [parse4Y] at h
  | a :: b :: c :: d :: rest2 =>
    simp only [parse4Y] at h
    split_ifs at h with hc
    simp only [Option.some.injEq, Prod.mk.injEq] at h
    obtain ⟨hv, hr⟩ := h
    exact ⟨a, b, c, d, by rw [hr], hc.1, hc.2.1, hc.2.2.1, hc.2.2.2, hv.symm⟩

theorem strptime_of_specLenient (cs : List Char) (v : Nat × Nat × Nat)
    (h : specLenientDMY cs = some v) : strptime_dmY cs = some v := by
  have hdot : ('.' : Char).isDigit = false := by decide
  match cs with
  | [] => simp [specLenientDMY] at h
  | [a1] => simp [specLenientDMY] at h
  | [a1, a2] => simp [specLenientDMY] at h
  | [a1, a2, a3] => simp [specLenientDMY] at h
  | [a1, a2, a3, a4] => simp [specLenientDMY] at h
  | [a1, a2, a3, a4, a5] => simp [specLenientDMY] at h
  | [a1, a2, a3, a4, a5, a6] => simp [specLenientDMY] at h
  | [a1, a2, a3, a4, a5, a6, a7] => simp [specLenientDMY] at h
  | [a1, a2, a3, a4, a5, a6, a7, a8] =>
    simp only [specLenientDMY] at h
    split_ifs at h with hc
    obtain ⟨hs1, hs2, hd1, hd1lo, hd1hi, hm1, hm1lo, hm1hi, hy1, hy2, hy3, hy4⟩ := hc
    subst hs1
    subst hs2
    rw [← h]
    simp [strptime_dmY, pyNum2, parse4Y, hd1, hm1, hy1, hy2, hy3, hy4, hdot,
      hd1lo, hd1hi, hm1lo, hm1hi]
  | [a1, a2, a3, a4, a5, a6, a7, a8, a9] =>
    simp only [specLenientDMY] at h
    split_ifs at h with hc1 hc2
    · obtain ⟨hs1, hs2, hd1, hd2, hdlo, hdhi, hm1, hm1lo, hm1hi, hy1, hy2, hy3, hy4⟩ := hc1
      subst hs1
      subst hs2
      rw [← h]
      simp [strptime_dmY, pyNum2, parse4Y, hd1, hd2, hm1, hy1, hy2, hy3, hy4, hdot,
        hdlo, hdhi, hm1lo, hm1hi]
    · obtain ⟨hs1, hs2, hd1, hdlo, hdhi, hm1, hm2, hmlo, hmhi, hy1, hy2, hy3, hy4⟩ := hc2
      subst hs1
      subst hs2
      rw [← h]
      simp [strptime_dmY, pyNum2, parse4Y, hd1, hm1, hm2, hy1, hy2, hy3, hy4, hdot,
        hdlo, hdhi, hmlo, hmhi]
  | [a1, a2, a3, a4, a5, a6, a7, a8, a9, a10] =>
    simp only [specLenientDMY] at h
    split_ifs at h with hc
    obtain ⟨hs1, hs2, hd1, hd2, hdlo, hdhi, hm1, hm2, hmlo, hmhi, hy1, hy2, hy3, hy4⟩ := hc
    subst hs1
    subst hs2
    rw [← h]
    simp [strptime_dmY, pyNum2, parse4Y, hd1, hd2, hm1, hm2, hy1, hy2, hy3, hy4, hdot,
      hdlo, hdhi, hmlo, hmhi]
  | a1 :: a2 :: a3 :: a4 :: a5 :: a6 :: a7 :: a8 :: a9 :: a10 :: a11 :: rest =>
    simp [specLenientDMY] at h

theorem specLenient_of_strptime (cs : List Char) (v : Nat × Nat × Nat)
    (h : strptime_dmY cs = some v) : specLenientDMY cs = some v := by
  have hdot : ('.' : Char).isDigit = false := by decide
  unfold strptime_dmY at h
  cases hday : pyNum2 1 31 cs with
  | none =>
    simp only [hday] at h
    cases h
  | some p =>
    obtain ⟨dv, r1⟩ := p
    simp only [hday] at h
    cases r1 with
    | nil => simp at h
    | cons c r2 =>
      simp only [] at h
      by_cases hcdot : c = '.'
      · rw [if_pos hcdot] at h
        subst hcdot
        cases hmonth : pyNum2 1 12 r2 with
        | none =>
          simp only [hmonth] at h
          cases h
        | some q =>
          obtain ⟨mv, r3⟩ := q
          simp only [hmonth] at h
          cases r3 with
          | nil => simp at h
          | cons c2 r4 =>
            simp only [] at h
            by_cases hc2dot : c2 = '.'
            · rw [if_pos hc2dot] at h
              subst hc2dot
              cases hy : parse4Y r4 with
              | none =>
                simp only [hy] at h
                cases h
              | some yr =>
                obtain ⟨yv, yrest⟩ := yr
                simp only [hy] at h
                cases yrest with
                | cons a b => simp at h
                | nil =>
                  injection h with hv
                  subst hv
                  obtain ⟨y1, y2, y3, y4, hr4, hy1, hy2, hy3, hy4, hyval⟩ :=
                    parse4Y_some r4 yv [] hy
                  subst hr4
                  rcases pyNum2_some 31 cs dv ('.' :: r2) hday with
                    ⟨c1, c2x, rest2, hcs, hrest, hc1d, hc2d, hdlo, hdhi, hdval⟩ |
                    ⟨c1, hcs, hc1d, hdlo, hdhi, hdval⟩
                  · subst hrest
                    subst hcs
                    rcases pyNum2_some 12 r2 mv ('.' :: y1 :: y2 :: y3 :: y4 :: []) hmonth with
                      ⟨m1, m2, rest3, hr2, hrest3, hm1d, hm2d, hmlo, hmhi, hmval⟩ |
                      ⟨m1, hr2, hm1d, hmlo, hmhi, hmval⟩
                    · subst hrest3
                      subst hr2
                      simp only [specLenientDMY]
                      rw [if_pos ⟨by trivial, by trivial, hc1d, hc2d, by omega, by omega, hm1d, hm2d,
                        by omega, by omega, hy1, hy2, hy3, hy4⟩]
                      rw [← hdval, ← hmval, ← hyval]
                    · subst hr2
                      simp only [specLenientDMY]
                      rw [if_pos ⟨by trivial, by trivial, hc1d, hc2d, by omega, by omega, hm1d,
                        by omega, by omega, hy1, hy2, hy3, hy4⟩]
                      rw [← hdval, ← hmval, ← hyval]
                  · subst hcs
                    rcases pyNum2_some 12 r2 mv ('.' :: y1 :: y2 :: y3 :: y4 :: []) hmonth with
                      ⟨m1, m2, rest3, hr2, hrest3, hm1d, hm2d, hmlo, hmhi, hmval⟩ |
                      ⟨m1, hr2, hm1d, hmlo, hmhi, hmval⟩
                    · subst hrest3
                      subst hr2
                      simp only [specLenientDMY]
                      rw [if_neg (fun hcand =>
                        Bool.false_ne_true (hdot ▸ hcand.2.2.2.1))]
                      rw [if_pos ⟨by trivial, by trivial, hc1d, by omega, by omega, hm1d, hm2d,
                        by omega, by omega, hy1, hy2, hy3, hy4⟩]
                      rw [← hdval, ← hmval, ← hyval]
                    · subst hr2
                      simp only [specLenientDMY]
                      rw [if_pos ⟨by trivial, by trivial, hc1d, by omega, by omega, hm1d,
                        by omega, by omega, hy1, hy2, hy3, hy4⟩]
                      rw [← hdval, ← hmval, ← hyval]
            · rw [if_neg hc2dot] at h
              cases h
      · rw [if_neg hcdot] at h
        cases h

theorem strptime_eq_specLenient (cs : List Char) :
    strptime_dmY cs = specLenientDMY cs := by
  cases h1 : strptime_dmY cs with
  | some v => rw [specLenient_of_strptime cs v h1]
  | none =>
    cases h2 : specLenientDMY cs with
    | none => rfl
    | some v =>
      rw [strptime_of_specLenient cs v h2] at h1
      cases h1

/-- C5 (amended): constructing a `Birthday` from `t` fails with the
validation error exactly when `t` does not match the lenient
day.month.year form — day and month written with one digit 1–9 or two
digits within range (the leading zero is optional), year with exactly
four digits — or the matched numbers do not denote a real calendar date;
on success both the original text and the parsed date are retained. -/
theorem C5_birthday_validation (s : String) :
    (exceptOk (mkBirthday s) = true ↔
      ∃ d m y, specLenientDMY s.data = some (d, m, y) ∧
        (mkDate y m d).isSome = true) ∧
    (∀ b, mkBirthday s = .ok b → b.value = s ∧
      ∃ d m y, specLenientDMY s.data = some (d, m, y) ∧
        mkDate y m d = some b.date_value) ∧
    (exceptOk (mkBirthday s) = false →
      mkBirthday s = .error "Invalid date format. Use DD.MM.YYYY") := by
  cases hp : specLenientDMY s.data with
  | none =>
    have hmb : mkBirthday s = .error "Invalid date format. Use DD.MM.YYYY" := by
      unfold mkBirthday
      rw [strptime_eq_specLenient s.data, hp]
    refine ⟨⟨fun h => ?_, fun h => ?_⟩, fun b hb => ?_, fun _ => hmb⟩
    · rw [hmb] at h
      simp [exceptOk] at h
    · obtain ⟨d, m, y, hdm, _⟩ := h
      cases hdm
    · rw [hmb] at hb
      cases hb
  | some t =>
    obtain ⟨d, m, y⟩ := t
    cases hm : mkDate y m d with
    | none =>
      have hmb : mkBirthday s = .error "Invalid date format. Use DD.MM.YYYY" := by
        unfold mkBirthday
        rw [strptime_eq_specLenient s.data, hp]
        simp only [hm]
      refine ⟨⟨fun h => ?_, fun h => ?_⟩, fun b hb => ?_, fun _ => hmb⟩
      · rw [hmb] at h
        simp [exceptOk] at h
      · obtain ⟨d2, m2, y2, hdm, hsome⟩ := h
        injection hdm with he
        obtain ⟨he1, he2, he3⟩ : d = d2 ∧ m = m2 ∧ y = y2 := by simpa using he
        subst he1
        subst he2
        subst he3
        rw [hm] at hsome
        simp at hsome
      · rw [hmb] at hb
        cases hb
    | some dt =>
      have hmb : mkBirthday s = .ok ⟨s, dt⟩ := by
        unfold mkBirthday
        rw [strptime_eq_specLenient s.data, hp]
        simp only [hm]
      refine ⟨⟨fun _ => ⟨d, m, y, rfl, by simp [hm]⟩, fun _ => by rw [hmb]; rfl⟩,
        fun b hb => ?_, fun hfalse => ?_⟩
      · rw [hmb] at hb
        injection hb with he
        subst he
        exact ⟨rfl, d, m, y, rfl, hm⟩
      · rw [hmb] at hfalse
        simp [exceptOk] at hfalse

/-- C5 witness: a leap-day date in both the strict and lenient forms. -/
theorem C5_birthday_validation_witness :
    ((exceptOk (mkBirthday "29.02.2024") = true ↔
      ∃ d m y, specLenientDMY "29.02.2024".data = some (d, m, y) ∧
        (mkDate y m d).isSome = true) ∧
    (∀ b, mkBirthday "29.02.2024" = .ok b → b.value = "29.02.2024" ∧
      ∃ d m y, specLenientDMY "29.02.2024".data = some (d, m, y) ∧
        mkDate y m d = some b.date_value) ∧
    (exceptOk (mkBirthday "29.02.2024") = false →
      mkBirthday "29.02.2024" = .error "Invalid date format. Use DD.MM.YYYY")) :=
  C5_birthday_validation "29.02.2024"

end Task1
